import Mathlib

/-!
Shallow embedding of the analysis core of the `vscode-x86-plugin` language
server (`src/server/server.ts`): the per-line tokenizer, the identifier
classifier, `splitLine`, `semanticsAnalysis`, the relative-delta token
encoder inside `computeSemanticTokens`, and `computeTokenDelta`, together
with theorems checking the specification's claims about them.

Conventions of the embedding:
* JS numbers holding token categories are `Int` (the code uses the sentinel
  `-1` for an unclassified identifier); positions and lengths are `Nat`.
* Token text is a `List Char` (JS strings indexed per character).
* Code that can throw a `TypeError` at runtime is embedded with
  `Option`/`Except`: `none` / `.error` marks the thrown exception.
* The mutable module-level `diagnostics : Diagnostic[] | null` variable is
  threaded explicitly as an `Option (List Diagnostic)` state.
-/

namespace X86

/-- Category codes as assigned by `tokenTypesLegend.forEach((x, i) => tokenTypes[x] = i)`
(server.ts:77-88).  The legend is
`["keyword", "function", "variable", "number", "comment", "type", "macro", "operator"]`. -/
def tokenTypesLegend : List String :=
  ["keyword", "function", "variable", "number", "comment", "type", "macro", "operator"]

/-- `tokenTypes["keyword"]` -/
def ctKeyword : Int := 0
/-- `tokenTypes["function"]` -/
def ctFunction : Int := 1
/-- `tokenTypes["variable"]` -/
def ctVariable : Int := 2
/-- `tokenTypes["number"]` -/
def ctNumber : Int := 3
/-- `tokenTypes["comment"]` -/
def ctComment : Int := 4
/-- `tokenTypes["type"]` -/
def ctType : Int := 5
/-- `tokenTypes["macro"]` (the assembler-directive category) -/
def ctMacro : Int := 6
/-- `tokenTypes["operator"]` -/
def ctOperator : Int := 7

/-- `tokenModifiersLegend` (server.ts:81). -/
def tokenModifiersLegend : List String := ["declaration", "readonly", "deprecated"]

/-- The instruction-mnemonic vocabulary (server.ts:9-39). -/
def instructions : List String := [
  "adc", "and", "add", "bsf",
  "bsr", "bt", "btr", "bts", "cmp",
  "cmpsb", "cmpsd", "cmpsq", "cmpsw",
  "cupid", "cwd", "cdq", "cdo",
  "dec", "div", "idiv", "imul", "lahf",
  "lea", "lodsb", "lodsw", "lodsd", "lodsq",
  "mov", "movsx", "movsxd", "movzx",
  "mul", "neg", "not", "or", "pop",
  "popfq", "push", "pushfq", "rcl", "rcr",
  "rep", "repe", "repz", "repne", "repnz",
  "rol", "ror", "sahf", "sar", "setcc",
  "shl", "shr", "sbb", "std",
  "stosb", "stosw", "stosd", "stosq",
  "test", "xchg", "xor",
  "jl", "jg", "ja", "jb",
  "jle", "jge", "jae", "jbe",
  "jne", "js", "jns", "jp", "jnp",
  "jc", "jnc", "jo", "jno",
  "jmp",
  "cmovl", "cmovg", "cmova", "cmovb",
  "cmovle", "cmovge",
  "call", "ret"]

/-- The register vocabulary (server.ts:41-65). -/
def registers : List String := [
  "rax", "rbx", "rcx", "rdx",
  "rdi", "rsi", "rbp", "rsp",
  "r8", "r9", "r10", "r11",
  "r12", "r13", "r14", "r15",
  "eax", "ebx", "ecx", "edx",
  "edi", "esi", "ebp", "esp",
  "r8d", "r9d", "r10d", "r11d",
  "r12d", "r13d", "r14d", "r15d",
  "ax", "bx", "cx", "dx",
  "di", "si", "bp", "sp",
  "r8w", "r9w", "r10w", "r11w",
  "r12w", "r13w", "r14w", "r15w",
  "al", "bl", "cl", "dl",
  "dil", "sil", "bpl", "spl",
  "r8b", "r9b", "r10b", "r11b",
  "r12b", "r13b", "r14b", "r15b"]

/-- The size/type keyword vocabulary `types` (server.ts:67-69). -/
def types : List String := ["dword", "qword", "word", "byte"]

/-- The assembler-directive vocabulary (server.ts:71-75). -/
def directives : List String := ["global", "section", "text", "data", "bss"]

/-- The `Token` class (server.ts:153-169): absolute line, start column,
text, category code (`Int`, with `-1` = unclassified) and modifier bits. -/
structure Token where
  line_no : Nat
  start : Nat
  value : List Char
  type : Int
  modif : Nat
deriving DecidableEq, Repr

/-- `Token.length()` (server.ts:168). -/
def Token.length (t : Token) : Nat := t.value.length

/-- The `Instruction` class (server.ts:171-180): the tokens of one source
line (comments stripped). -/
structure Instruction where
  operands : List Token
deriving DecidableEq, Repr

/-- The `Diagnostic` class (server.ts:182-199); the `start`/`end` fields are
`(line, character)` pairs and severity `1` is `lsp.DiagnosticSeverity.Error`. -/
structure Diagnostic where
  level : Nat
  message : String
  startPos : Nat × Nat
  endPos : Nat × Nat
  relatedInfo : List String
deriving DecidableEq, Repr

/-- The `Diagnostic` constructor (server.ts:189-198) applied to explicit
begin/end tokens; a single-token diagnostic passes the same token twice
(the constructor's `end = end ?? begin` default). -/
def Diagnostic.ofTokens (level : Nat) (message : String) (b e : Token) : Diagnostic :=
  ⟨level, message, (b.line_no, b.start), (e.line_no, e.start + e.length), []⟩

/-- `\w` of the JS regex `/^[_\w]+/` (server.ts:353): ASCII letter, digit or
underscore. -/
def isWordChar (c : Char) : Bool := c.isAlpha || c.isDigit || c == '_'

/-- The classifier for identifier text (server.ts:358-371): membership in the
four vocabularies, in priority order, else the sentinel `-1`. -/
def classifyId (s : List Char) : Int :=
  if instructions.contains (String.mk s) then ctKeyword
  else if registers.contains (String.mk s) then ctVariable
  else if types.contains (String.mk s) then ctType
  else if directives.contains (String.mk s) then ctMacro
  else -1

/-- One step of the tokenizer loop (server.ts:332-389), fuelled so that the
definition is structurally recursive (each loop iteration consumes at least
one character, so fuel `cs.length` is always enough; `scanLine` below
supplies it).  Returns the emitted tokens and the number of characters
skipped without emitting a token.  The cases mirror the source order:
comment (`;` to end of line, then `break`), maximal digit run, maximal
`[_\w]` run, single `[`/`]`/`:` operator (which falls through to `i++`),
and the silent skip `i++`. -/
def scanLineF (line_no : Nat) : Nat → Nat → List Char → List Token × Nat
  | 0, _, _ => ([], 0)
  | _ + 1, _, [] => ([], 0)
  | fuel + 1, i, c :: cs =>
    if c = ';' then
      ([⟨line_no, i, c :: cs, ctComment, 0⟩], 0)
    else if c.isDigit then
      let str := c :: cs.takeWhile Char.isDigit
      let r := scanLineF line_no fuel (i + str.length) (cs.dropWhile Char.isDigit)
      (⟨line_no, i, str, ctNumber, 0⟩ :: r.1, r.2)
    else if isWordChar c then
      let str := c :: cs.takeWhile isWordChar
      let r := scanLineF line_no fuel (i + str.length) (cs.dropWhile isWordChar)
      (⟨line_no, i, str, classifyId str, 0⟩ :: r.1, r.2)
    else if c = '[' ∨ c = ']' ∨ c = ':' then
      let r := scanLineF line_no fuel (i + 1) cs
      (⟨line_no, i, [c], ctOperator, 0⟩ :: r.1, r.2)
    else
      let r := scanLineF line_no fuel (i + 1) cs
      (r.1, r.2 + 1)

/-- The per-line tokenizer (the body of `lines.forEach` at server.ts:332-389)
starting at offset `i` in the character list `cs`. -/
def scanLine (line_no i : Nat) (cs : List Char) : List Token × Nat :=
  scanLineF line_no cs.length i cs

/-- JS `text.split("\n")` on the character list of `text`: every `\n` is a
separator and a trailing separator yields a final empty line. -/
def splitOnNewline : List Char → List (List Char)
  | [] => [[]]
  | c :: cs =>
    if c = '\n' then [] :: splitOnNewline cs
    else
      match splitOnNewline cs with
      | [] => [[c]]
      | l :: ls => (c :: l) :: ls

/-- The whole-document tokenizer of `computeSemanticTokens`
(server.ts:329-389): split on newlines and scan each line with its index. -/
def tokenizeText (text : String) : List Token :=
  (splitOnNewline text.data).enum.flatMap fun p => (scanLine p.1 0 p.2).1

/-- The comment filter of `splitLine` (`x.type !== tokenTypes.comment`,
server.ts:280).  In the source every element of the returned `lines` array
is a reference to the *same* `curInst` array — `curInst` is never re-bound —
so after the loop every Instruction aliases one array holding exactly the
document's non-comment tokens in order.  `instArray` is that final content. -/
def instArray (tokens : List Token) : List Token :=
  tokens.filter fun t => t.type != ctComment

/-- The number of `lines.push(curInst)` calls made inside the loop of
`splitLine` (server.ts:273-282): one per change of `line_no` relative to a
cursor starting at line `0`. -/
def splitLinePushCount (tokens : List Token) : Nat :=
  (tokens.foldl
    (fun (acc : Nat × Nat) x =>
      if x.line_no ≠ acc.2 then (acc.1 + 1, x.line_no) else acc)
    (0, 0)).1

/-- `splitLine` (server.ts:268-287).  The loop pushes the shared `curInst`
array once per line transition and once more after the loop; because every
push stores a reference to the same array, the result is
`pushCount + 1` Instructions that all wrap the final content of `curInst`,
i.e. all non-comment tokens of the document. -/
def splitLine (tokens : List Token) : List Instruction :=
  List.replicate (splitLinePushCount tokens + 1) ⟨instArray tokens⟩

/-- The body of the `for (let x of inst)` loop of `semanticsAnalysis`
(server.ts:297-322) applied to the operand list of one Instruction.
`none` models the `TypeError` thrown when `operands` is empty
(`x.head()` is `undefined`, so `x.head().type` throws).  Otherwise the
result is the (possibly head-mutated) operand list together with the
diagnostics pushed for this Instruction.  Note the source's diagnostic
message for a label without a colon is literally
`"missing semicolon for labels"` (server.ts:315). -/
def validateInst (ops : List Token) : Option (List Token × List Diagnostic) :=
  match ops with
  | [] => none
  | h :: rest =>
    if h.type = -1 then
      if 2 < ops.length then
        some (ops, [Diagnostic.ofTokens 1 "unexpected content after label"
          (ops.getD 2 h) (ops.getD (ops.length - 1) h)])
      else if ops.length = 1 ∨ ¬ (ops.getD 1 h).value = [':'] then
        some (ops, [Diagnostic.ofTokens 1 "missing semicolon for labels" h h])
      else
        some (({ h with type := ctFunction }) :: rest, [])
    else
      some (ops, [])

/-- Write `ty` into the `type` field of the first non-comment token: this is
what the in-place mutation `x.head().type = tokenTypes.function`
(server.ts:320) does to the document token list, since the shared
Instruction array aliases the corresponding `Token` objects of `tokens`. -/
def setFirstNonComment : List Token → Int → List Token
  | [], _ => []
  | t :: rest, ty =>
    if t.type != ctComment then { t with type := ty } :: rest
    else t :: setFirstNonComment rest ty

/-- The `for (let x of inst)` loop of `semanticsAnalysis` (server.ts:297-322)
run `k` times (once per Instruction returned by `splitLine`; all of them
alias one array, re-read here as `instArray ts` each iteration, which is
stable under the only mutation the loop performs, `-1 ↦ ctFunction`).
`.error ds` models the `TypeError` escaping with the global diagnostics
list at `ds`.  Re-writing the unchanged head type in the non-mutating
branches is a no-op by structure eta. -/
def runLoop : Nat → List Token → List Diagnostic →
    Except (List Diagnostic) (List Token × List Diagnostic)
  | 0, ts, ds => .ok (ts, ds)
  | k + 1, ts, ds =>
    match validateInst (instArray ts) with
    | none => .error ds
    | some (ops', newDs) =>
      runLoop k
        (match ops' with
         | [] => ts
         | h' :: _ => setFirstNonComment ts h'.type)
        (ds ++ newDs)

/-- `semanticsAnalysis` (server.ts:292-323) acting on the document token
list and the global `diagnostics` variable (`none` = JS `null`; the
function replaces `null` by `[]` and then appends).  Returns the mutated
token list and the final diagnostics list, or `.error` for the
`TypeError` raised on an empty instruction. -/
def semanticsAnalysis (tokens : List Token) (st : Option (List Diagnostic)) :
    Except (List Diagnostic) (List Token × List Diagnostic) :=
  runLoop (splitLine tokens).length tokens (st.getD [])

/-- The relative-position conversion loop of `computeSemanticTokens`
(server.ts:395-412): cursor `(currentLine, currentChar)`, `deltaLine`
computed first, column cursor reset to `0` on a positive line delta, and
five integers pushed per token. -/
def encodeAux : List Token → Nat → Nat → List Int
  | [], _, _ => []
  | x :: rest, curLine, curChar =>
    let deltaLine : Int := (x.line_no : Int) - (curLine : Int)
    let newChar : Nat := if 0 < deltaLine then 0 else curChar
    let newLine : Nat := if 0 < deltaLine then x.line_no else curLine
    let deltaStart : Int := (x.start : Int) - (newChar : Int)
    deltaLine :: deltaStart :: (x.value.length : Int) :: x.type :: (x.modif : Int) ::
      encodeAux rest newLine x.start

/-- The encoder applied from the initial cursor `(0, 0)`. -/
def encodeTokens (tokens : List Token) : List Int := encodeAux tokens 0 0

/-- `computeSemanticTokens` (server.ts:325-413) for a document whose text is
already in hand (the `uri` lookup of the surrounding handler is modelled
separately), threading the global `diagnostics` state.  First component
`none` = the pass threw; otherwise the encoded token stream. -/
def computeSemanticTokens (text : String) (st : Option (List Diagnostic)) :
    Option (List Int) × Option (List Diagnostic) :=
  match semanticsAnalysis (tokenizeText text) st with
  | .error ds => (none, some ds)
  | .ok (tokens', ds) => (some (encodeTokens tokens'), some ds)

/-- `sendDiagnostics` (server.ts:231-266) restricted to its state effect on
the global `diagnostics` variable: if it is `null`, run
`computeSemanticTokens` first; then read the list, flush the global to
`null` and return the list (`none` in the first component = the eager
compute threw before anything was delivered). -/
def sendDiagnostics (text : String) (st : Option (List Diagnostic)) :
    Option (List Diagnostic) × Option (List Diagnostic) :=
  match st with
  | some ds => (some ds, none)
  | none =>
    match computeSemanticTokens text none with
    | (none, st') => (none, st')
    | (some _, st') => (some (st'.getD []), none)

/-- One full analysis round for a document: the semantic-tokens request
(`connection.languages.semanticTokens.on`, server.ts:444-449, which runs
`computeSemanticTokens`) followed by a diagnostics pull
(`connection.languages.diagnostics.on` → `sendDiagnostics`).  Output: the
encoded stream and the delivered diagnostics, plus the final state of the
global `diagnostics` variable. -/
def fullPass (text : String) (st : Option (List Diagnostic)) :
    (Option (List Int) × Option (List Diagnostic)) × Option (List Diagnostic) :=
  let r := computeSemanticTokens text st
  let s := sendDiagnostics text r.2
  ((r.1, s.1), s.2)

/-- The edit record `{start, deleteCount, data}` pushed by
`computeTokenDelta` (server.ts:435-439). -/
structure Edit where
  start : Nat
  deleteCount : Nat
  data : List Int
deriving DecidableEq, Repr

/-- The first `while` loop of `computeTokenDelta` (server.ts:420-422): the
index of the first mismatch, i.e. the length of the longest common prefix
(the loop's `minLen` bound is implicit: past it one list has ended). -/
def commonPrefixLen : List Int → List Int → Nat
  | a :: as, b :: bs => if a = b then commonPrefixLen as bs + 1 else 0
  | _, _ => 0

/-- The second `while` loop of `computeTokenDelta` (server.ts:429-432):
walk `beforeEnd`/`afterEnd` down from the array lengths while both stay
above `mismatch` and the elements before them agree. -/
def backwardScan (before after : List Int) (m : Nat) : Nat → Nat → Nat × Nat
  | 0, aE => (0, aE)
  | bE + 1, aE =>
    if m < bE + 1 ∧ m < aE ∧ before.getD bE 0 = after.getD (aE - 1) 0 then
      backwardScan before after m bE (aE - 1)
    else (bE + 1, aE)

/-- `computeTokenDelta` (server.ts:415-442). -/
def computeTokenDelta (before after : List Int) : List Edit :=
  let mismatch := commonPrefixLen before after
  if mismatch = before.length ∧ mismatch = after.length then []
  else
    let e := backwardScan before after mismatch before.length after.length
    [⟨mismatch, e.1 - mismatch, (after.drop mismatch).take (e.2 - mismatch)⟩]

/-- Apply one `{start, deleteCount, data}` edit: replace the slice
`[start, start + deleteCount)` of `l` by `data`. -/
def applyEdit (l : List Int) (e : Edit) : List Int :=
  l.take e.start ++ e.data ++ l.drop (e.start + e.deleteCount)

/-- Apply an edit list left to right. -/
def applyEdits (l : List Int) (es : List Edit) : List Int :=
  es.foldl applyEdit l

/-- The document store `documents.get` (server.ts:202, 326) as an
association list from uri to text. -/
def documentsGet (store : List (String × String)) (uri : String) : Option String :=
  (store.find? fun p => p.1 == uri).map (·.2)

/-- The `connection.languages.semanticTokens.on` handler (server.ts:444-449)
including the document lookup of `computeSemanticTokens` (server.ts:326):
for an absent uri, `documents.get(uri)?.getText()!` is `undefined` and
`undefined.split("\n")` throws a `TypeError`, modelled as first component
`none` with the diagnostics state untouched. -/
def semanticTokensOn (store : List (String × String)) (uri : String)
    (st : Option (List Diagnostic)) : Option (List Int) × Option (List Diagnostic) :=
  match documentsGet store uri with
  | none => (none, st)
  | some text => computeSemanticTokens text st

/-- The `connection.languages.diagnostics.on` handler (server.ts:201-214):
for an absent uri it answers a full report with empty `items` (first
component `some []`); otherwise it delegates to `sendDiagnostics`. -/
def diagnosticsOn (store : List (String × String)) (uri : String)
    (st : Option (List Diagnostic)) : Option (List Diagnostic) × Option (List Diagnostic) :=
  match documentsGet store uri with
  | none => (some [], st)
  | some text => sendDiagnostics text st

/-- The decoder for the wire encoding, written from the spec's replay rule:
accumulate `deltaLine`, reset the column cursor to `0` on every line
advance, accumulate `deltaColumn`, and read off `(line, column, length)`
per 5-tuple. -/
def decodeAux : List Int → Int → Int → List (Int × Int × Int)
  | dl :: dc :: len :: _ty :: _mo :: rest, curLine, curChar =>
    let line := curLine + dl
    let col := (if 0 < dl then 0 else curChar) + dc
    (line, col, len) :: decodeAux rest line col
  | _, _, _ => []

/-- The strict `(line, column)` ordering invariant on adjacent tokens. -/
def tokenLt (a b : Token) : Prop :=
  a.line_no < b.line_no ∨ (a.line_no = b.line_no ∧ a.start < b.start)

instance (a b : Token) : Decidable (tokenLt a b) := by
  unfold tokenLt; infer_instance

/-- Sum of the lengths of the emitted tokens of a scan. -/
def sumTokenLengths (ts : List Token) : Nat :=
  (ts.map fun t => t.value.length).sum

/-- Every 4th component (0-based index 3) of each 5-tuple of an encoded
stream: the category indices on the wire. -/
def tupleCats : List Int → List Int
  | _ :: _ :: _ :: d :: _ :: rest => d :: tupleCats rest
  | _ => []

/-- Every 5th component (0-based index 4) of each 5-tuple of an encoded
stream: the modifier bitsets on the wire. -/
def tupleMods : List Int → List Int
  | _ :: _ :: _ :: _ :: e :: rest => e :: tupleMods rest
  | _ => []

/-- The category/modifier sanity invariant maintained by the pipeline: the
category code is one of the eight legend positions or the sentinel `-1`,
and the modifier bitset is the `0` every `Token` is constructed with. -/
def tokOk (t : Token) : Prop := (-1 ≤ t.type ∧ t.type ≤ 7) ∧ t.modif = 0

/-- An unclassified identifier token `foo` at line 0, column 0. -/
def fooTok : Token := ⟨0, 0, ['f', 'o', 'o'], -1, 0⟩

/-- The operator token `:` following `fooTok` on its line. -/
def colonTok : Token := ⟨0, 3, [':'], 7, 0⟩

/-- An unclassified one-character token on line 0. -/
def tokA : Token := ⟨0, 0, ['a'], -1, 0⟩

/-- An unclassified one-character token on line 1. -/
def tokB : Token := ⟨1, 0, ['b'], -1, 0⟩

/-- An unclassified one-character token on line 2 (lines 0 and 2 occupied,
line 1 blank). -/
def tokC : Token := ⟨2, 0, ['b'], -1, 0⟩

/-- A small token list satisfying the `(line, column)` ordering invariant. -/
def c4Tokens : List Token := [⟨0, 1, ['a', 'b'], 0, 0⟩, ⟨1, 0, ['c'], 3, 0⟩]

/-- C1: the claim says `splitLine` partitions the token stream into one
Instruction per source line, each holding exactly that line's tokens, with
blank lines yielding an empty Instruction.  The code violates this: for the
tokens of the document `"a\nb"` (token `tokA` on line 0, `tokB` on line 1)
it returns two Instructions that *both* contain both tokens — `curInst` is
never re-bound, so every pushed element of `lines` aliases the same array —
and for tokens on lines 0 and 2 it returns only two Instructions for three
source lines, so the blank line 1 yields no Instruction at all. -/
theorem C1_splitLine_aliases :
    splitLine [tokA, tokB] = [⟨[tokA, tokB]⟩, ⟨[tokA, tokB]⟩] ∧
    splitLine [tokA, tokC] = [⟨[tokA, tokC]⟩, ⟨[tokA, tokC]⟩] := by
  exact ⟨by decide, by decide⟩

/-- C2: the claim (and the spec's end-to-end example) says the analysis of
`"mov eax, 5\nfoo:\nbar baz qux:\n"` yields exactly one diagnostic (on line
3) and reclassifies `foo` to FunctionLabel.  The code yields *zero*
diagnostics and leaves `foo` (and `bar`, `baz`, `qux`) at the sentinel
category `-1` in the emitted stream: because of the `splitLine` aliasing
every Instruction's head is the keyword `mov`, so `semanticsAnalysis`
inspects nothing.  The encoded stream below is the full pipeline output;
the `-1` entries at tuple positions 4, 6, 7, 8 are the unreclassified
identifiers, and the diagnostics state ends as `some []`. -/
theorem C2_end_to_end :
    computeSemanticTokens "mov eax, 5\nfoo:\nbar baz qux:\n" none =
      (some [0, 0, 3, 0, 0,  0, 4, 3, 2, 0,  0, 5, 1, 3, 0,
             1, 0, 3, -1, 0,  0, 3, 1, 7, 0,
             1, 0, 3, -1, 0,  0, 4, 3, -1, 0,  0, 4, 3, -1, 0,  0, 3, 1, 7, 0],
       some []) := by
  decide

/-- C5: the claim says a label Instruction with a missing/wrong second token
gets an Error diagnostic with message `"missing colon for label"`.  The
validator body does record an Error over exactly the head token and
continues, but its message is literally `"missing semicolon for labels"`
(server.ts:315): evaluating the loop body on the single-token Instruction
`[fooTok]` shows the emitted message, which differs from the claimed one. -/
theorem C5_message_mismatch :
    validateInst [fooTok] =
      some ([fooTok],
        [⟨1, "missing semicolon for labels", (0, 0), (0, 3), []⟩]) ∧
    "missing semicolon for labels" ≠ "missing colon for label" := by
  exact ⟨by decide, by decide⟩

/-- C6 counterexample: the claim says that on the valid label Instruction
`[fooTok, colonTok]` the validator sets the declaration modifier bit on the
head token.  It does reclassify the head to `ctFunction` and emits no
diagnostic, but the resulting head token's modifier bitset is still `0`:
bit 0 (the `declaration` position of the modifier legend) is not set. -/
theorem C6_counterexample :
    validateInst [fooTok, colonTok] =
      some ([{ fooTok with type := ctFunction }, colonTok], []) ∧
    Nat.testBit ({ fooTok with type := ctFunction } : Token).modif 0 = false := by
  exact ⟨by decide, by decide⟩

/-- C6 (amended): for every Instruction of exactly two tokens whose head is
an Unknown (`-1`) identifier and whose second token is an Operator token
with text `":"`, the validator loop body emits no diagnostic and
reclassifies the head's category to FunctionLabel, leaving the modifier
bits unchanged (no declaration bit is set; the code never writes
modifiers). -/
theorem C6_label_success (h t : Token) (hty : h.type = -1)
    (hop : t.type = ctOperator) (hval : t.value = [':']) :
    validateInst [h, t] = some ([{ h with type := ctFunction }, t], []) ∧
    ({ h with type := ctFunction } : Token).modif = h.modif := by
  refine ⟨?_, rfl⟩
  unfold validateInst
  simp [hty, hval]

/-- Witness for `C6_label_success` at the concrete Instruction
`[fooTok, colonTok]`. -/
theorem C6_label_success_witness :
    validateInst [fooTok, colonTok] =
      some ([{ fooTok with type := ctFunction }, colonTok], []) ∧
    ({ fooTok with type := ctFunction } : Token).modif = fooTok.modif :=
  C6_label_success fooTok colonTok (by decide) (by decide) (by decide)

/-- C8 counterexample: the claim says every emitted tuple's category index
lies in the advertised legend range `[0, 7]` for any input text.  For the
text `"foo bar"` the pipeline emits the stream
`[0,0,3,-1,0, 0,4,3,-1,0]`, whose category entries are `-1`: the two
identifiers stay at the sentinel `-1` (the label validation fails with a
diagnostic and never reclassifies them), and `-1` is outside `[0, 7]`. -/
theorem C8_counterexample :
    computeSemanticTokens "foo bar" none =
      (some [0, 0, 3, -1, 0,  0, 4, 3, -1, 0],
       some [⟨1, "missing semicolon for labels", (0, 0), (0, 3), []⟩]) ∧
    ¬ (0 ≤ (-1 : Int) ∧ (-1 : Int) ≤ 7) := by
  exact ⟨by decide, by decide⟩

/-- C10: the claim says every request for a document identifier absent from
the store returns an empty result set rather than throwing.  The
diagnostics handler does (it answers `items: []`), but the semantic-tokens
handler does not: `documents.get(uri)?.getText()!` evaluates to
`undefined` and `undefined.split("\n")` throws a `TypeError` (first
component `none` in the model), so the token request crashes instead of
returning empty token data. -/
theorem C10_missing_document :
    semanticTokensOn [] "file:///a.asm" none = (none, none) ∧
    diagnosticsOn [] "file:///a.asm" none = (some [], none) := by
  exact ⟨rfl, rfl⟩

/-- `computeSemanticTokens` always leaves the global diagnostics variable
non-null (both the throwing and the successful branch store `some _`). -/
theorem computeSemanticTokens_snd_isSome (text : String)
    (st : Option (List Diagnostic)) :
    ∃ ds, (computeSemanticTokens text st).2 = some ds := by
  unfold computeSemanticTokens
  cases semanticsAnalysis (tokenizeText text) st with
  | error ds => exact ⟨ds, rfl⟩
  | ok p => exact ⟨p.2, rfl⟩

/-- After a full analysis round the global diagnostics variable is flushed
back to `null`: the diagnostics pull always finds the `some _` left by
`computeSemanticTokens` and clears it. -/
theorem fullPass_state_none (text : String) (st : Option (List Diagnostic)) :
    (fullPass text st).2 = none := by
  obtain ⟨ds, hds⟩ := computeSemanticTokens_snd_isSome text st
  simp only [fullPass]
  rw [hds]
  rfl

/-- C7: running the full analysis round (semantic-tokens computation plus
the diagnostics pull) twice in succession on the same unchanged text gives
identical outputs: the first round always resets the global diagnostics
variable to `null`, which is exactly the state the first round started
from, and the computation itself reads nothing but the text. -/
theorem C7_idempotent (text : String) :
    (fullPass text (fullPass text none).2).1 = (fullPass text none).1 := by
  rw [fullPass_state_none]

/-- Dropping a prefix by a predicate never lengthens a list. -/
theorem length_dropWhile_le (p : Char → Bool) (l : List Char) :
    (l.dropWhile p).length ≤ l.length := by
  have h := congrArg List.length (List.takeWhile_append_dropWhile p l)
  rw [List.length_append] at h
  omega

/-- `sumTokenLengths` distributes over cons. -/
theorem sumTokenLengths_cons (t : Token) (ts : List Token) :
    sumTokenLengths (t :: ts) = t.value.length + sumTokenLengths ts := by
  simp [sumTokenLengths]

/-- Coverage of the fuelled scanner: with enough fuel, the emitted token
lengths plus the skipped-character count add up to the line length. -/
theorem scanLineF_coverage (line_no : Nat) :
    ∀ fuel i cs, cs.length ≤ fuel →
      sumTokenLengths (scanLineF line_no fuel i cs).1 +
        (scanLineF line_no fuel i cs).2 = cs.length := by
  intro fuel
  induction fuel with
  | zero =>
    intro i cs h
    have : cs = [] := List.eq_nil_of_length_eq_zero (Nat.le_zero.mp h)
    subst this
    simp [scanLineF, sumTokenLengths]
  | succ fuel ih =>
    intro i cs h
    cases cs with
    | nil => simp [scanLineF, sumTokenLengths]
    | cons c cs' =>
      have hlen : cs'.length ≤ fuel := by
        simpa using Nat.succ_le_succ_iff.mp h
      simp only [scanLineF]
      split
      · -- comment: one token spanning the rest, nothing skipped
        simp [sumTokenLengths]
      · split
        · -- digit run
          have hdrop := length_dropWhile_le Char.isDigit cs'
          have hrec := ih (i + ((cs'.takeWhile Char.isDigit).length + 1))
            (cs'.dropWhile Char.isDigit) (le_trans hdrop hlen)
          have hsplit := congrArg List.length
            (List.takeWhile_append_dropWhile Char.isDigit cs')
          rw [List.length_append] at hsplit
          simp only [sumTokenLengths_cons, List.length_cons]
          omega
        · split
          · -- identifier run
            have hdrop := length_dropWhile_le isWordChar cs'
            have hrec := ih (i + ((cs'.takeWhile isWordChar).length + 1))
              (cs'.dropWhile isWordChar) (le_trans hdrop hlen)
            have hsplit := congrArg List.length
              (List.takeWhile_append_dropWhile isWordChar cs')
            rw [List.length_append] at hsplit
            simp only [sumTokenLengths_cons, List.length_cons]
            omega
          · split
            · -- single-character operator
              have hrec := ih (i + 1) cs' hlen
              simp only [sumTokenLengths_cons, List.length_cons,
                List.length_singleton, List.length_nil]
              omega
            · -- silently skipped character
              have hrec := ih (i + 1) cs' hlen
              simp only [List.length_cons]
              omega

/-- C9: for every input line the lexer terminates (it is a total function)
and the sum of the lengths of the tokens it emits plus the number of
characters it skips without emitting a token equals the line's length:
every character belongs to exactly one emitted token or is skipped. -/
theorem C9_lexer_coverage (line_no i : Nat) (cs : List Char) :
    sumTokenLengths (scanLine line_no i cs).1 + (scanLine line_no i cs).2 =
      cs.length :=
  scanLineF_coverage line_no cs.length i cs (Nat.le_refl _)

/-- Replaying the encoder's deltas from any cursor at or before the first
token's line reconstructs the absolute positions: the generalized
induction behind the round-trip claim. -/
theorem decode_encodeAux (ts : List Token) :
    ∀ (curLine curChar : Nat),
      List.Chain' tokenLt ts →
      (∀ x, ts.head? = some x → curLine ≤ x.line_no) →
      decodeAux (encodeAux ts curLine curChar) (curLine : Int) (curChar : Int) =
        ts.map fun t => ((t.line_no : Int), (t.start : Int), (t.value.length : Int)) := by
  induction ts with
  | nil => intro _ _ _ _; rfl
  | cons x rest ih =>
    intro curLine curChar hchain hhead
    have hline : curLine ≤ x.line_no := hhead x rfl
    have htail : ∀ y, rest.head? = some y → x.line_no ≤ y.line_no := by
      intro y hy
      cases rest with
      | nil => simp at hy
      | cons z zs =>
        simp only [List.head?] at hy
        cases hy
        have hlt : tokenLt x y := (List.chain'_cons.mp hchain).1
        rcases hlt with h | ⟨he, _⟩ <;> omega
    have hchain' : List.Chain' tokenLt rest := hchain.tail
    simp only [encodeAux, decodeAux, List.map_cons]
    by_cases hadv : curLine < x.line_no
    · have hpos : (0 : Int) < (x.line_no : Int) - (curLine : Int) := by
        omega
      rw [if_pos hpos]
      simp only [if_pos hpos]
      have h1 : (curLine : Int) + ((x.line_no : Int) - (curLine : Int)) =
          (x.line_no : Int) := by ring
      have h2 : (0 : Int) + ((x.start : Int) - ((0 : Nat) : Int)) =
          (x.start : Int) := by push_cast; ring
      rw [h1, h2]
      exact congrArg _ (ih x.line_no x.start hchain' htail)
    · have heq : curLine = x.line_no := Nat.le_antisymm hline (Nat.not_lt.mp hadv)
      have hpos : ¬ (0 : Int) < (x.line_no : Int) - (curLine : Int) := by
        omega
      rw [if_neg hpos]
      simp only [if_neg hpos]
      have h1 : (curLine : Int) + ((x.line_no : Int) - (curLine : Int)) =
          (x.line_no : Int) := by ring
      have h2 : (curChar : Int) + ((x.start : Int) - (curChar : Int)) =
          (x.start : Int) := by ring
      rw [h1, h2, heq]
      exact congrArg _ (ih x.line_no x.start hchain' htail)

/-- C4: for every token list sorted ascending by `(line, column)` with
strictly increasing columns within a line (adjacent-pair form of the §3
ordering invariant), decoding the encoder's flat 5-tuple output by
replaying `deltaLine`/`deltaColumn` against a cursor whose column resets
to 0 on every line advance reconstructs the original absolute
`(line, column, length)` triple of every token, in order. -/
theorem C4_roundtrip (ts : List Token) (h : List.Chain' tokenLt ts) :
    decodeAux (encodeTokens ts) 0 0 =
      ts.map fun t => ((t.line_no : Int), (t.start : Int), (t.value.length : Int)) :=
  decode_encodeAux ts 0 0 h (fun x _ => Nat.zero_le _)

/-- Witness for `C4_roundtrip` at the concrete ordered token list
`c4Tokens`. -/
theorem c4Tokens_sorted : List.Chain' tokenLt c4Tokens := by
  unfold c4Tokens
  refine List.chain'_cons.mpr ⟨Or.inl ?_, List.chain'_singleton _⟩
  decide

theorem C4_roundtrip_witness :
    List.Chain' tokenLt c4Tokens ∧
    decodeAux (encodeTokens c4Tokens) 0 0 =
      c4Tokens.map fun t => ((t.line_no : Int), (t.start : Int), (t.value.length : Int)) :=
  ⟨c4Tokens_sorted, C4_roundtrip c4Tokens c4Tokens_sorted⟩

/-- The forward scan never passes the end of the left list. -/
theorem commonPrefixLen_le_left (a b : List Int) :
    commonPrefixLen a b ≤ a.length := by
  induction a generalizing b with
  | nil => simp [commonPrefixLen]
  | cons x xs ih =>
    cases b with
    | nil => simp [commonPrefixLen]
    | cons y ys =>
      simp only [commonPrefixLen, List.length_cons]
      split
      · exact Nat.succ_le_succ (ih ys)
      · omega

/-- The forward scan never passes the end of the right list. -/
theorem commonPrefixLen_le_right (a b : List Int) :
    commonPrefixLen a b ≤ b.length := by
  induction a generalizing b with
  | nil => simp [commonPrefixLen]
  | cons x xs ih =>
    cases b with
    | nil => simp [commonPrefixLen]
    | cons y ys =>
      simp only [commonPrefixLen, List.length_cons]
      split
      · exact Nat.succ_le_succ (ih ys)
      · omega

/-- Up to the first mismatch the two lists agree. -/
theorem take_commonPrefixLen_eq (a b : List Int) :
    a.take (commonPrefixLen a b) = b.take (commonPrefixLen a b) := by
  induction a generalizing b with
  | nil => simp [commonPrefixLen]
  | cons x xs ih =>
    cases b with
    | nil => simp [commonPrefixLen]
    | cons y ys =>
      simp only [commonPrefixLen]
      split
      · next hxy => simp [List.take_succ_cons, hxy, ih ys]
      · simp

/-- On identical lists the forward scan runs to the end. -/
theorem commonPrefixLen_self (l : List Int) : commonPrefixLen l l = l.length := by
  induction l with
  | nil => simp [commonPrefixLen]
  | cons x xs ih => simp [commonPrefixLen, ih]

/-- When the forward scan exhausts both lists they are equal. -/
theorem eq_of_commonPrefixLen_lengths (a b : List Int)
    (h1 : commonPrefixLen a b = a.length) (h2 : commonPrefixLen a b = b.length) :
    a = b := by
  have h3 : a.length = b.length := by omega
  have h4 := take_commonPrefixLen_eq a b
  rw [h1] at h4
  rwa [List.take_length, h3, List.take_length] at h4

/-- Invariants of the backward scan of `computeTokenDelta`: the cursors stay
between `m` and the list lengths and the suffixes they cut off agree. -/
theorem backwardScan_spec (before after : List Int) (m : Nat) :
    ∀ bE aE, bE ≤ before.length → aE ≤ after.length → m ≤ bE → m ≤ aE →
      before.drop bE = after.drop aE →
      m ≤ (backwardScan before after m bE aE).1 ∧
      (backwardScan before after m bE aE).1 ≤ before.length ∧
      m ≤ (backwardScan before after m bE aE).2 ∧
      (backwardScan before after m bE aE).2 ≤ after.length ∧
      before.drop (backwardScan before after m bE aE).1 =
        after.drop (backwardScan before after m bE aE).2 := by
  intro bE
  induction bE with
  | zero =>
    intro aE h1 h2 h3 h4 h5
    simp only [backwardScan]
    exact ⟨h3, Nat.zero_le _, h4, h2, h5⟩
  | succ bE ih =>
    intro aE h1 h2 h3 h4 h5
    simp only [backwardScan]
    split
    · next hc =>
      obtain ⟨hm1, hm2, heq⟩ := hc
      have hbElt : bE < before.length := Nat.lt_of_lt_of_le (Nat.lt_succ_self bE) h1
      have haE1 : 1 ≤ aE := Nat.lt_of_le_of_lt (Nat.zero_le m) hm2
      have haElt : aE - 1 < after.length := by omega
      have hdrop : before.drop bE = after.drop (aE - 1) := by
        rw [List.drop_eq_getElem_cons hbElt, List.drop_eq_getElem_cons haElt]
        have e1 : before.getD bE 0 = before[bE] := List.getD_eq_getElem before 0 hbElt
        have e2 : after.getD (aE - 1) 0 = after[aE - 1] := List.getD_eq_getElem after 0 haElt
        rw [e1, e2] at heq
        rw [← heq]
        have : aE - 1 + 1 = aE := by omega
        rw [this, h5]
      exact ih (aE - 1) (Nat.le_of_lt hbElt) (Nat.le_of_lt haElt)
        (by omega) (by omega) hdrop
    · exact ⟨h3, h1, h4, h2, h5⟩

/-- C3: `computeTokenDelta` returns at most one edit; it returns the empty
edit list exactly when `before` and `after` are element-wise equal; and
applying the returned edits to `before` (replacing the slice
`[start, start + deleteCount)` by `data`) yields exactly `after`. -/
theorem C3_delta_correct (before after : List Int) :
    (computeTokenDelta before after).length ≤ 1 ∧
    (computeTokenDelta before after = [] ↔ before = after) ∧
    applyEdits before (computeTokenDelta before after) = after := by
  unfold computeTokenDelta
  by_cases hcond : commonPrefixLen before after = before.length ∧
      commonPrefixLen before after = after.length
  · have hba : before = after :=
      eq_of_commonPrefixLen_lengths before after hcond.1 hcond.2
    rw [if_pos hcond]
    exact ⟨by simp, by simp [hba], by simp [applyEdits, hba]⟩
  · simp only [if_neg hcond]
    have hne : before ≠ after := by
      intro hba
      subst hba
      exact hcond ⟨commonPrefixLen_self before, commonPrefixLen_self before⟩
    obtain ⟨s1, s2, s3, s4, s5⟩ := backwardScan_spec before after
      (commonPrefixLen before after) before.length after.length
      (Nat.le_refl _) (Nat.le_refl _)
      (commonPrefixLen_le_left before after) (commonPrefixLen_le_right before after)
      (by simp)
    refine ⟨by simp, by simp [hne], ?_⟩
    simp only [applyEdits, List.foldl_cons, List.foldl_nil, applyEdit]
    set m := commonPrefixLen before after with hm
    set bE := (backwardScan before after m before.length after.length).1 with hbE
    set aE := (backwardScan before after m before.length after.length).2 with haE
    have hm_bE : m + (bE - m) = bE := by omega
    have hm_aE : m + (aE - m) = aE := by omega
    rw [hm_bE]
    calc before.take m ++ (after.drop m).take (aE - m) ++ before.drop bE
        = after.take m ++ (after.drop m).take (aE - m) ++ after.drop aE := by
          rw [take_commonPrefixLen_eq before after, s5]
      _ = after.take (m + (aE - m)) ++ after.drop aE := by
          rw [List.take_add]
      _ = after.take aE ++ after.drop aE := by rw [hm_aE]
      _ = after := List.take_append_drop aE after

/-- The classifier only produces codes in `{0, 2, 5, 6, -1}`, all within
`[-1, 7]`. -/
theorem classifyId_range (s : List Char) :
    -1 ≤ classifyId s ∧ classifyId s ≤ 7 := by
  unfold classifyId
  split_ifs <;> constructor <;> decide

/-- A token built with a category in `[-1, 7]` and modifier `0` satisfies
`tokOk`. -/
theorem tokOk_mk (line_no i : Nat) (v : List Char) (ty : Int)
    (h : -1 ≤ ty ∧ ty ≤ 7) : tokOk ⟨line_no, i, v, ty, 0⟩ := ⟨h, rfl⟩

/-- Every token emitted by the fuelled scanner has a category in `[-1, 7]`
and modifier bitset `0`. -/
theorem scanLineF_tokOk (line_no : Nat) :
    ∀ fuel i cs t, t ∈ (scanLineF line_no fuel i cs).1 → tokOk t := by
  intro fuel
  induction fuel with
  | zero => intro i cs t ht; simp [scanLineF] at ht
  | succ fuel ih =>
    intro i cs t ht
    cases cs with
    | nil => simp [scanLineF] at ht
    | cons c cs' =>
      simp only [scanLineF] at ht
      split at ht
      · simp at ht
        subst ht
        exact tokOk_mk _ _ _ _ (by decide)
      · split at ht
        · rcases List.mem_cons.mp ht with h | h
          · subst h; exact tokOk_mk _ _ _ _ (by decide)
          · exact ih _ _ t h
        · split at ht
          · rcases List.mem_cons.mp ht with h | h
            · subst h
              exact tokOk_mk _ _ _ _ (classifyId_range _)
            · exact ih _ _ t h
          · split at ht
            · rcases List.mem_cons.mp ht with h | h
              · subst h; exact tokOk_mk _ _ _ _ (by decide)
              · exact ih _ _ t h
            · exact ih _ _ t ht

/-- Every token of the whole-document tokenizer satisfies `tokOk`. -/
theorem tokenizeText_tokOk (text : String) :
    ∀ t ∈ tokenizeText text, tokOk t := by
  intro t ht
  unfold tokenizeText at ht
  obtain ⟨p, _, hp⟩ := List.mem_flatMap.mp ht
  exact scanLineF_tokOk p.1 _ 0 p.2 t hp

/-- The validator loop body either leaves the operand list unchanged or
replaces the head's category by `ctFunction`. -/
theorem validateInst_shape (ops ops' : List Token) (ds : List Diagnostic)
    (h : validateInst ops = some (ops', ds)) :
    ops' = ops ∨
      ∃ hd rest, ops = hd :: rest ∧ ops' = ({ hd with type := ctFunction }) :: rest := by
  cases ops with
  | nil => simp [validateInst] at h
  | cons hd rest =>
    simp only [validateInst] at h
    by_cases h1 : hd.type = -1
    · rw [if_pos h1] at h
      by_cases h2 : 2 < (hd :: rest).length
      · rw [if_pos h2] at h
        cases h; exact Or.inl rfl
      · rw [if_neg h2] at h
        by_cases h3 : (hd :: rest).length = 1 ∨ ¬((hd :: rest).getD 1 hd).value = [':']
        · rw [if_pos h3] at h
          cases h; exact Or.inl rfl
        · rw [if_neg h3] at h
          cases h; exact Or.inr ⟨hd, rest, rfl, rfl⟩
    · rw [if_neg h1] at h
      cases h; exact Or.inl rfl

/-- `setFirstNonComment` preserves `tokOk` when the written category is in
range. -/
theorem setFirstNonComment_tokOk (ty : Int) (hty : -1 ≤ ty ∧ ty ≤ 7) :
    ∀ ts : List Token, (∀ t ∈ ts, tokOk t) →
      ∀ t ∈ setFirstNonComment ts ty, tokOk t := by
  intro ts
  induction ts with
  | nil => intro _ t ht; simp [setFirstNonComment] at ht
  | cons x rest ih =>
    intro hall t ht
    simp only [setFirstNonComment] at ht
    split at ht
    · rcases List.mem_cons.mp ht with h | h
      · subst h
        exact ⟨hty, (hall x (List.mem_cons_self x rest)).2⟩
      · exact hall t (List.mem_cons_of_mem x h)
    · rcases List.mem_cons.mp ht with h | h
      · subst h; exact hall t (List.mem_cons_self t rest)
      · exact ih (fun u hu => hall u (List.mem_cons_of_mem x hu)) t h

/-- The analysis loop preserves `tokOk` on the document token list. -/
theorem runLoop_tokOk :
    ∀ (k : Nat) (ts : List Token) (ds : List Diagnostic)
      (ts' : List Token) (ds' : List Diagnostic),
      runLoop k ts ds = .ok (ts', ds') → (∀ t ∈ ts, tokOk t) →
      ∀ t ∈ ts', tokOk t := by
  intro k
  induction k with
  | zero =>
    intro ts ds ts' ds' h hall
    simp only [runLoop] at h
    cases h
    exact hall
  | succ k ih =>
    intro ts ds ts' ds' h hall
    simp only [runLoop] at h
    cases hv : validateInst (instArray ts) with
    | none => rw [hv] at h; simp at h
    | some p =>
      rw [hv] at h
      obtain ⟨ops', newDs⟩ := p
      cases hops : ops' with
      | nil =>
        rw [hops] at h
        exact ih ts (ds ++ newDs) ts' ds' h hall
      | cons hd' tl' =>
        rw [hops] at h
        refine ih _ (ds ++ newDs) ts' ds' h ?_
        refine setFirstNonComment_tokOk hd'.type ?_ ts hall
        rcases validateInst_shape (instArray ts) ops' newDs hv with hsame | ⟨hd, rest, hA, hB⟩
        · -- head unchanged: it is the first non-comment token of `ts`
          have hmem : hd' ∈ instArray ts := by
            rw [← hsame, hops]; exact List.mem_cons_self _ _
          have : hd' ∈ ts := List.mem_of_mem_filter hmem
          exact (hall hd' this).1
        · -- head rewritten to `ctFunction`
          rw [hops] at hB
          cases hB
          exact ⟨show (-1 : Int) ≤ ctFunction by decide,
                 show ctFunction ≤ (7 : Int) by decide⟩

/-- The category entries of the encoder output are exactly the token
categories, in order. -/
theorem tupleCats_encodeAux :
    ∀ (ts : List Token) (curLine curChar : Nat),
      tupleCats (encodeAux ts curLine curChar) = ts.map Token.type := by
  intro ts
  induction ts with
  | nil => intro _ _; rfl
  | cons x rest ih =>
    intro curLine curChar
    simp only [encodeAux, tupleCats, List.map_cons]
    exact congrArg _ (ih _ _)

/-- The modifier entries of the encoder output are exactly the token
modifier bitsets, in order. -/
theorem tupleMods_encodeAux :
    ∀ (ts : List Token) (curLine curChar : Nat),
      tupleMods (encodeAux ts curLine curChar) = ts.map fun t => (t.modif : Int) := by
  intro ts
  induction ts with
  | nil => intro _ _; rfl
  | cons x rest ih =>
    intro curLine curChar
    simp only [encodeAux, tupleMods, List.map_cons]
    exact congrArg _ (ih _ _)

/-- C8 (amended): in every encoded token stream the server emits, each
tuple's category index lies in `[-1, 7]` — the eight legend positions or
the sentinel `-1` that unreclassified identifiers retain — and every
modifier bitset is `0` (which sets no bits outside the modifier legend).
The original claim's range `[0, 7]` is refuted by `C8_counterexample`. -/
theorem C8_legend_range (text : String) (st : Option (List Diagnostic))
    (strm : List Int) (st' : Option (List Diagnostic))
    (hrun : computeSemanticTokens text st = (some strm, st')) :
    (tupleCats strm).Forall (fun c => -1 ≤ c ∧ c ≤ 7) ∧
    (tupleMods strm).Forall (fun m => m = 0) := by
  unfold computeSemanticTokens at hrun
  cases hsem : semanticsAnalysis (tokenizeText text) st with
  | error ds => rw [hsem] at hrun; simp at hrun
  | ok p =>
    rw [hsem] at hrun
    obtain ⟨tokens', ds⟩ := p
    simp only [Prod.mk.injEq, Option.some.injEq] at hrun
    obtain ⟨hstrm, -⟩ := hrun
    have hok : ∀ t ∈ tokens', tokOk t := by
      unfold semanticsAnalysis at hsem
      exact runLoop_tokOk _ _ _ _ _ hsem (tokenizeText_tokOk text)
    subst hstrm
    unfold encodeTokens
    constructor
    · rw [tupleCats_encodeAux, List.forall_iff_forall_mem]
      intro c hc
      obtain ⟨t, ht, hct⟩ := List.mem_map.mp hc
      exact hct ▸ (hok t ht).1
    · rw [tupleMods_encodeAux, List.forall_iff_forall_mem]
      intro m hm
      obtain ⟨t, ht, hmt⟩ := List.mem_map.mp hm
      rw [← hmt, (hok t ht).2]
      rfl

/-- Witness for `C8_legend_range` on the document `"foo bar"`. -/
theorem C8_legend_range_witness :
    (tupleCats [0, 0, 3, -1, 0,  0, 4, 3, -1, 0]).Forall (fun c => -1 ≤ c ∧ c ≤ 7) ∧
    (tupleMods [0, 0, 3, -1, 0,  0, 4, 3, -1, 0]).Forall (fun m => m = 0) :=
  C8_legend_range "foo bar" none [0, 0, 3, -1, 0,  0, 4, 3, -1, 0]
    (some [⟨1, "missing semicolon for labels", (0, 0), (0, 3), []⟩]) (by decide)

end X86
